import Mathlib

set_option maxRecDepth 8192

/-!
Verification development for the airkorea page-content extraction pipeline
(`src/lib.rs`).  The extraction code consumes the results of fixed CSS
selector queries over a parsed HTML document; we embed a document as the
collection of those query results (each matched element contributes its
ordered list of text fragments), and translate the pure string processing
(trimming, the two regexes, comma/bracket splitting, float parsing, the
zip-and-filter record assembly) directly from the source.

Numeric tokens are parsed by Rust's `str::parse::<f32>`; we model its
accepted grammar exactly (optional sign; `inf`/`infinity`/`nan`
case-insensitively; otherwise a decimal significand with optional
exponent) and keep the parsed value as an exact rational — the rounding
of the decimal value to the nearest binary `f32` is not modelled, since
every property below depends only on parse success and on decimal values
that round trivially.
-/

/-- Model of an f32 value produced by a successful parse: a finite value
kept as an exact rational, an infinity with its sign, or a NaN. -/
inductive F32Val where
  | finite (q : Rat)
  | inf (neg : Bool)
  | nan
deriving DecidableEq

/-- ASCII digit test, as used by Rust's float grammar. -/
def isAsciiDigit (c : Char) : Bool := '0' ≤ c && c ≤ '9'

/-- Numeric value of a digit string (most significant first). -/
def digitsToNat (ds : List Char) : Nat :=
  ds.foldl (fun a c => a * 10 + (c.toNat - '0'.toNat)) 0

/-- Strip an optional leading sign; returns (isNegative, rest). -/
def parseSign : List Char → Bool × List Char
  | '+' :: cs => (false, cs)
  | '-' :: cs => (true, cs)
  | cs => (false, cs)

/-- Parse the decimal significand `Digits '.'? Digits? | '.' Digits` of
Rust's float grammar, returning its exact rational value and the rest. -/
def parseMantissa (cs : List Char) : Option (Rat × List Char) :=
  let ip := cs.takeWhile isAsciiDigit
  let rest := cs.dropWhile isAsciiDigit
  match rest with
  | '.' :: rest2 =>
    let fp := rest2.takeWhile isAsciiDigit
    let rest3 := rest2.dropWhile isAsciiDigit
    if ip.isEmpty && fp.isEmpty then none
    else some (((digitsToNat (ip ++ fp) : Rat)) / ((10 : Rat) ^ fp.length), rest3)
  | _ => if ip.isEmpty then none else some ((digitsToNat ip : Rat), rest)

/-- Parse the exponent part `[eE] [+-]? Digits` of Rust's float grammar. -/
def parseExpPart (cs : List Char) : Option (Int × List Char) :=
  match cs with
  | c :: rest =>
    if c = 'e' || c = 'E' then
      let (eneg, rest2) := parseSign rest
      let ds := rest2.takeWhile isAsciiDigit
      let rest3 := rest2.dropWhile isAsciiDigit
      if ds.isEmpty then none
      else some ((if eneg then -(digitsToNat ds : Int) else (digitsToNat ds : Int)), rest3)
    else none
  | [] => none

/-- Rust `str::parse::<f32>` on the character list of the input: the whole
input must be an optional sign followed by `inf`, `infinity` or `nan`
(case-insensitive), or a decimal significand with optional exponent. -/
def rustParseF32L (cs : List Char) : Option F32Val :=
  let (neg, cs2) := parseSign cs
  let lower := cs2.map Char.toLower
  if lower = "inf".data || lower = "infinity".data then some (.inf neg)
  else if lower = "nan".data then some .nan
  else
    match parseMantissa cs2 with
    | none => none
    | some (m, rest) =>
      match rest with
      | [] => some (.finite (if neg then -m else m))
      | _ =>
        match parseExpPart rest with
        | none => none
        | some (e, rest2) =>
          if rest2.isEmpty then some (.finite ((if neg then -m else m) * (10 : Rat) ^ e))
          else none

/-- Rust `str::parse::<f32>().ok()` as used in the series decoder. -/
def rust_parse_f32 (s : String) : Option F32Val := rustParseF32L s.data

/-- Rust `str::trim` on a character list (drop leading and trailing
whitespace). -/
def trimL (cs : List Char) : List Char :=
  ((cs.dropWhile Char.isWhitespace).reverse.dropWhile Char.isWhitespace).reverse

/-- Rust `str::trim` at the string level. -/
def trimS (s : String) : String := String.mk (trimL s.data)

/-- Splitter for Rust `str::split(pat)`: `splitOnAuxL sep cs k` processes
`cs`, first skipping `k` characters that belong to an already-matched
separator occurrence; at each position in scan mode it either matches the
separator (ending the current piece) or extends the current piece. -/
def splitOnAuxL (sep : List Char) : List Char → Nat → List (List Char)
  | [], _ => [[]]
  | _ :: cs, Nat.succ k => splitOnAuxL sep cs k
  | c :: cs, 0 =>
    if sep.isPrefixOf (c :: cs) then
      [] :: splitOnAuxL sep cs (sep.length - 1)
    else
      match splitOnAuxL sep cs 0 with
      | [] => [[c]]
      | r :: rs => (c :: r) :: rs

/-- Rust `str::split(sep)` collected to a vector of strings (non-empty
separator; leftmost, non-overlapping matches; empty pieces preserved). -/
def splitOnStr (s sep : String) : List String :=
  (splitOnAuxL sep.data s.data 0).map String.mk

/-- Helper for the single capture group of `REGEX_NAME = \((.*)\)`: return
the piece of the list before the LAST closing parenthesis, if any — regex
greediness makes `.*` extend to the last `)` of the scanned stretch. -/
def lastParenSplit : List Char → Option (List Char)
  | [] => none
  | c :: cs =>
    match lastParenSplit cs with
    | some t => some (c :: t)
    | none => if c = ')' then some [] else none

/-- First match of `REGEX_NAME = \((.*)\)`, capture group 1: scan for the
first `(` whose newline-free continuation contains a `)`; the capture runs
greedily to the last `)` of that continuation (`.` does not match `\n`). -/
def findParen : List Char → Option (List Char)
  | [] => none
  | c :: cs =>
    if c = '(' then
      match lastParenSplit (cs.takeWhile (fun d => d ≠ '\n')) with
      | some cap => some cap
      | none => findParen cs
    else findParen cs

/-- The `REGEX_NAME.captures(n).and_then(get(1))` step of `parse`: inner
content of the first parenthesized stretch of the label, if any. -/
def unwrap_parenthesized (s : String) : Option String :=
  (findParen s.data).map String.mk

/-- Literal prefix of `REGEX_ROW = addRows\(\[(.*)\]\);`. -/
def rowCallHead : List Char := "addRows([".data

/-- Literal tail of `REGEX_ROW`. -/
def rowCallTail : List Char := "]);".data

/-- Split a list around the LAST occurrence of `pat`, returning the pieces
before and after it (used for the greedy backtracking of `(.*)\]\);`). -/
def lastMatchSplit (pat : List Char) : List Char → Option (List Char × List Char)
  | [] => none
  | c :: cs =>
    match lastMatchSplit pat cs with
    | some (b, a) => some (c :: b, a)
    | none =>
      if pat.isPrefixOf (c :: cs) then some ([], (c :: cs).drop pat.length)
      else none

/-- Model of `REGEX_ROW.find_iter`: successive leftmost, non-overlapping
full matches of `addRows\(\[(.*)\]\);`.  At each scan position a match
requires the literal head; `.*` (which cannot cross a newline) then runs
greedily to the last `]);` of the same line.  After a match the scan
resumes at the match end; the `Nat` argument counts characters of an
emitted match still to be skipped. -/
def findIterRowAux : List Char → Nat → List (List Char)
  | [], _ => []
  | _ :: cs, Nat.succ k => findIterRowAux cs k
  | c :: cs, 0 =>
    if rowCallHead.isPrefixOf (c :: cs) then
      match lastMatchSplit rowCallTail (((c :: cs).drop rowCallHead.length).takeWhile (fun d => d ≠ '\n')) with
      | some (content, _) =>
        (rowCallHead ++ content ++ rowCallTail) ::
          findIterRowAux cs (rowCallHead.length + content.length + rowCallTail.length - 1)
      | none => findIterRowAux cs 0
    else findIterRowAux cs 0

/-- All full matches of `REGEX_ROW` in a script text, in order. -/
def regexRowFindIter (script : String) : List String :=
  (findIterRowAux script.data 0).map String.mk

/-- The air-quality grade enumeration, in source declaration order (the
Rust `derive(PartialOrd, Ord)` orders variants by declaration index). -/
inductive Grade where
  | None
  | Good
  | Normal
  | Bad
  | Critical
deriving DecidableEq, Fintype

/-- Declaration index of a grade, the discriminant compared by the derived
`PartialOrd`/`Ord` instances. -/
def Grade.discr : Grade → Nat
  | .None => 0
  | .Good => 1
  | .Normal => 2
  | .Bad => 3
  | .Critical => 4

/-- The derived `Ord` relation on `Grade`: discriminant comparison. -/
def Grade.le (a b : Grade) : Prop := a.discr ≤ b.discr

/-- The derived strict order on `Grade`. -/
def Grade.lt (a b : Grade) : Prop := a.discr < b.discr

instance (a b : Grade) : Decidable (Grade.le a b) := by
  unfold Grade.le; infer_instance

instance (a b : Grade) : Decidable (Grade.lt a b) := by
  unfold Grade.lt; infer_instance

/-- Rust `s.starts_with(pat)` for a one-character pattern: the first
character of `s` is that character. -/
def strStartsWithChar (s : String) (c : Char) : Bool :=
  match s.data.head? with
  | some d => d == c
  | none => false

/-- Translation of `Grade::from_str`: classify on the leading glyph, in the
source's check order. -/
def Grade.from_str (s : String) : Grade :=
  if strStartsWithChar s '좋' then Grade.Good
  else if strStartsWithChar s '보' then Grade.Normal
  else if strStartsWithChar s '나' then Grade.Bad
  else if strStartsWithChar s '매' then Grade.Critical
  else Grade.None

/-- One matched element of a selector query: its text nodes in document
order (what `ElementRef::text()` iterates). -/
structure ElementRef where
  texts : List String
deriving DecidableEq

/-- Translation of `extract_text_from_element`: trim each text fragment and
concatenate. -/
def extract_text_from_element (e : ElementRef) : String :=
  String.mk ((e.texts.map (fun t => trimL t.data)).flatten)

/-- One repeated `div[class^=mList]>ul>li` block, embedded as the results
of the three nested selector queries `parse` performs on it: the first
`.tit` match, the first `.con>.co>.tx>.t1` match, and the first
`.con>.co>.tx>.t1>sub` match, when present. -/
structure Block where
  nameElem : Option ElementRef
  gradeElem : Option ElementRef
  unitElem : Option ElementRef
deriving DecidableEq

/-- A parsed document, embedded as the results of the five fixed selector
queries `parse` runs over it, each a list of matched elements in document
order. -/
structure Html where
  stationElems : List ElementRef
  timeElems : List ElementRef
  listElems : List Block
  scriptElems : List ElementRef
deriving DecidableEq

/-- One pollutant record of the output. -/
structure Pollutant where
  name : String
  unit : String
  data : List (Option F32Val)
  grade : Grade
deriving DecidableEq

/-- The extraction result. -/
structure AirStatus where
  station_address : String
  time : String
  pollutants : List Pollutant
deriving DecidableEq

/-- The per-block tuple built inside `parse` (`pollutant_keys`): recovered
parenthesized code, unit text, classified grade. -/
def blockKey (graph : Block) : Option String × String × Grade :=
  let name := (graph.nameElem.map extract_text_from_element).bind
    (fun n => unwrap_parenthesized n)
  let grade := ((graph.gradeElem.map extract_text_from_element).map
    (fun g => Grade.from_str g)).getD Grade.None
  let unit := (graph.unitElem.map extract_text_from_element).getD ""
  (name, unit, grade)

/-- Decoding of one row chunk inside a matched `addRows` call: split on
commas, keep the tokens that parse as `f32`, take the first. -/
def decode_row (data : String) : Option F32Val :=
  ((splitOnStr data ",").filterMap rust_parse_f32).head?

/-- Decoding of one full `REGEX_ROW` match: split on the `],[` row
boundary and decode each chunk. -/
def decodeCall (row : String) : List (Option F32Val) :=
  (splitOnStr row "],[").map decode_row

/-- The closure of the final `filter_map`: keep the pair only when the
block has a recovered code. -/
def mkPollutant (x : List (Option F32Val) × (Option String × String × Grade)) : Option Pollutant :=
  x.2.1.map (fun name => { name := name, unit := x.2.2.1, data := x.1, grade := x.2.2.2 })

/-- Station extraction: first `h1>.tit` match, first text node, trimmed;
empty when absent. -/
def stationOf (doc : Html) : String :=
  ((doc.stationElems.map (fun e => trimS (e.texts.headD ""))).headD "")

/-- Time extraction: first `h1>.tim` match's concatenated trimmed text;
empty when absent. -/
def timeOf (doc : Html) : String :=
  ((doc.timeElems.map extract_text_from_element).headD "")

/-- Pollutant assembly of `parse`: on the script node's text, decode every
`REGEX_ROW` match, zip positionally with the per-block key tuples, and
keep the pairs whose block carries a code; empty when the script node is
absent. -/
def pollutantsOf (doc : Html) : List Pollutant :=
  ((doc.scriptElems.head?.map extract_text_from_element).map (fun script =>
    (((regexRowFindIter script).map decodeCall).zip (doc.listElems.map blockKey)).filterMap
      mkPollutant)).getD []

/-- Translation of `parse`. -/
def parse (doc : Html) : AirStatus :=
  { station_address := stationOf doc
    time := timeOf doc
    pollutants := pollutantsOf doc }

/-- A two-call script text used in concrete checks below: each call is on
its own line, carrying two rows whose first comma token is a non-numeric
label (as on the real page, where the leading token is a time label). -/
def twoCallScript : String :=
  "addRows([[z,1],[2,0]]);\naddRows([[z,3],[4,0]]);"

/-- Helper: the grade classifier factors through the leading character. -/
def gradeOfHead : Option Char → Grade
  | some c =>
    if c == '좋' then Grade.Good
    else if c == '보' then Grade.Normal
    else if c == '나' then Grade.Bad
    else if c == '매' then Grade.Critical
    else Grade.None
  | none => Grade.None

/-- The matched series calls of a document: `REGEX_ROW` matches of the
script node's text, empty when the script node is absent. -/
def seriesCallsOf (doc : Html) : List String :=
  ((doc.scriptElems.head?.map extract_text_from_element).map regexRowFindIter).getD []

/-- A document whose embedded script node is entirely absent while the
station, time and one well-formed pollutant card are present. -/
def noScriptDoc : Html :=
  { stationElems := [⟨["세종 세종시 신흥동측정소"]⟩]
    timeElems := [⟨["2019-04-13 18시 기준"]⟩]
    listElems := [{ nameElem := some ⟨["아황산가스(SO2)"]⟩
                    gradeElem := some ⟨["좋음"]⟩
                    unitElem := some ⟨["ppm"]⟩ }]
    scriptElems := [] }

/-- Simultaneous positional pairing with drop: walk the decoded series
list and the per-block key list in lockstep; a pair whose block carries a
code yields a pollutant, a pair without one is skipped, and whichever
list runs out first ends the walk. -/
def assembleRec : List (List (Option F32Val)) → List (Option String × String × Grade) → List Pollutant
  | [], _ => []
  | _ :: _, [] => []
  | d :: ds, (some n, u, g) :: ks => ⟨n, u, d, g⟩ :: assembleRec ds ks
  | _ :: ds, (none, _, _) :: ks => assembleRec ds ks

/-- Pairing following the spec's words for 4.3/4.5: the metadata sequence
is FIRST filtered to the blocks with a recovered parenthesized code, and
only then zipped positionally with the series sequence.  Modelled from the
spec for comparison with the code's order of operations. -/
def assembleFilteredSpec (ds : List (List (Option F32Val)))
    (ks : List (Option String × String × Grade)) : List Pollutant :=
  (ds.zip (ks.filter (fun k => k.1.isSome))).filterMap mkPollutant

/-- A document whose first pollutant card carries no parenthesized code
while the second does, with two matched series calls. -/
def leadingCodelessDoc : Html :=
  { stationElems := [⟨["S"]⟩]
    timeElems := [⟨["T"]⟩]
    listElems := [{ nameElem := some ⟨["통합대기환경지수"]⟩
                    gradeElem := some ⟨["좋음"]⟩
                    unitElem := some ⟨["ppm"]⟩ }
                , { nameElem := some ⟨["미세먼지(PM10)"]⟩
                    gradeElem := some ⟨["나쁨"]⟩
                    unitElem := some ⟨["ug"]⟩ }]
    scriptElems := [⟨[twoCallScript]⟩] }

/-- Modelled from the spec: the claim reads `unwrap_parenthesized` as
returning "the inner content of the first parenthesized group", i.e. the
text between the first `(` and the first `)` that follows it.  Defined
only to compare the spec's wording with the code's greedy-regex capture. -/
def firstParenGroupSpec : List Char → Option (List Char)
  | [] => none
  | c :: cs =>
    if c = '(' then
      if (cs.dropWhile (fun d => d ≠ ')')).isEmpty then none
      else some (cs.takeWhile (fun d => d ≠ ')'))
    else firstParenGroupSpec cs

/-- String-level wrapper of `firstParenGroupSpec`. -/
def first_parenthesized_group (s : String) : Option String :=
  (firstParenGroupSpec s.data).map String.mk

theorem strStartsWithChar_eq (s : String) (c : Char) :
    strStartsWithChar s c = match s.data.head? with
      | some d => d == c
      | none => false := rfl

theorem from_str_eq_gradeOfHead (s : String) :
    Grade.from_str s = gradeOfHead s.data.head? := by
  unfold Grade.from_str
  rw [strStartsWithChar_eq, strStartsWithChar_eq, strStartsWithChar_eq,
    strStartsWithChar_eq]
  rcases h : s.data.head? with _ | c <;> rfl

theorem pollutantsOf_eq_zip (doc : Html) :
    pollutantsOf doc =
      (((seriesCallsOf doc).map decodeCall).zip (doc.listElems.map blockKey)).filterMap
        mkPollutant := by
  rw [pollutantsOf, seriesCallsOf]
  cases doc.scriptElems.head? <;> simp

theorem zip_filterMap_eq_assembleRec :
    ∀ (ds : List (List (Option F32Val))) (ks : List (Option String × String × Grade)),
      (ds.zip ks).filterMap mkPollutant = assembleRec ds ks := by
  intro ds
  induction ds with
  | nil => intro ks; rfl
  | cons d ds ih =>
    intro ks
    cases ks with
    | nil => rfl
    | cons k ks =>
      rcases k with ⟨n, u, g⟩
      cases n with
      | none => simpa [assembleRec, mkPollutant] using ih ks
      | some nm => simpa [assembleRec, mkPollutant] using ih ks

theorem assembleRec_length_le :
    ∀ (ds : List (List (Option F32Val))) (ks : List (Option String × String × Grade)),
      (assembleRec ds ks).length ≤ (ks.filter (fun k => k.1.isSome)).length := by
  intro ds
  induction ds with
  | nil => intro ks; simp [assembleRec]
  | cons d ds ih =>
    intro ks
    cases ks with
    | nil => simp [assembleRec]
    | cons k ks =>
      rcases k with ⟨n, u, g⟩
      cases n with
      | none =>
        simpa [assembleRec, List.filter_cons] using ih ks
      | some nm =>
        simpa [assembleRec, List.filter_cons] using Nat.succ_le_succ (ih ks)

theorem lastParenSplit_eq_none (l : List Char) (h : ')' ∉ l) :
    lastParenSplit l = none := by
  induction l with
  | nil => rfl
  | cons c cs ih =>
    have hc : c ≠ ')' := fun e => h (e ▸ List.mem_cons_self c cs)
    have hcs := ih (fun m => h (List.mem_cons_of_mem c m))
    simp only [lastParenSplit, hcs, if_neg hc]

theorem lastParenSplit_append (mid t : List Char) (hmid : ')' ∉ mid)
    (ht : ')' ∉ t) : lastParenSplit (mid ++ ')' :: t) = some mid := by
  induction mid with
  | nil =>
    simp [List.nil_append, lastParenSplit, lastParenSplit_eq_none t ht]
  | cons c cs ih =>
    have step := ih (fun m => hmid (List.mem_cons_of_mem c m))
    simp only [List.cons_append, lastParenSplit, List.append_eq, step]

theorem takeWhile_append_paren (mid post : List Char) (hmid : '\n' ∉ mid) :
    (mid ++ ')' :: post).takeWhile (fun d => d ≠ '\n')
      = mid ++ ')' :: post.takeWhile (fun d => d ≠ '\n') := by
  induction mid with
  | nil => simp [List.takeWhile_cons]
  | cons c cs ih =>
    have hc : c ≠ '\n' := fun e => hmid (e ▸ List.mem_cons_self c cs)
    have step := ih (fun m => hmid (List.mem_cons_of_mem c m))
    simp only [decide_not] at step
    simp [List.cons_append, List.takeWhile_cons, hc, step]

theorem findParen_append_of_no_paren (pre rest : List Char) (h : '(' ∉ pre) :
    findParen (pre ++ rest) = findParen rest := by
  induction pre with
  | nil => rfl
  | cons c cs ih =>
    have hc : c ≠ '(' := fun e => h (e ▸ List.mem_cons_self c cs)
    have hcs := ih (fun m => h (List.mem_cons_of_mem c m))
    simp only [List.cons_append, findParen, if_neg hc]
    exact hcs

theorem findParen_single_group (pre mid post : List Char)
    (hpre : '(' ∉ pre) (hmid1 : ')' ∉ mid) (hmid2 : '\n' ∉ mid)
    (hpost : ')' ∉ post.takeWhile (fun d => d ≠ '\n')) :
    findParen (pre ++ '(' :: (mid ++ ')' :: post)) = some mid := by
  rw [findParen_append_of_no_paren pre _ hpre]
  simp only [findParen]
  rw [takeWhile_append_paren mid post hmid2,
    lastParenSplit_append mid _ hmid1 hpost]
  simp

theorem findParen_eq_none_of_no_paren (l : List Char) (h : '(' ∉ l) :
    findParen l = none := by
  have e := findParen_append_of_no_paren l [] h
  simpa using e

/-- C1 counterexample: in the row `"x,5"` the FIRST comma-separated token
`"x"` fails to parse as a float, yet the decoded value of the row is not
`None` — the code's `filter_map(..).next()` recovers the value `5` from
the second token.  (The fixture data relies on this: each real row leads
with a non-numeric time label.) -/
theorem C1_counterexample_later_token_recovered :
    rust_parse_f32 "x" = none ∧ decode_row "x,5" = some (F32Val.finite 5) :=
  ⟨by decide, by decide⟩

/-- C1 amended: for every row, the decoder scans the comma-separated
tokens left to right and yields the FIRST token that parses as a float
(not necessarily the first token); a row none of whose tokens parses
yields `None`; and rows are decoded independently, so sibling rows are
unaffected. -/
theorem C1_row_decodes_first_parsing_token :
    (∀ (row t : String) (pre rest : List String) (v : F32Val),
        splitOnStr row "," = pre ++ t :: rest →
        (∀ s ∈ pre, rust_parse_f32 s = none) →
        rust_parse_f32 t = some v →
        decode_row row = some v)
    ∧ (∀ row : String,
        (∀ s ∈ splitOnStr row ",", rust_parse_f32 s = none) →
        decode_row row = none)
    ∧ (∀ (m : String) (i : Nat),
        (decodeCall m)[i]? = (splitOnStr m "],[")[i]?.map decode_row) := by
  refine ⟨?_, ?_, ?_⟩
  · intro row t pre rest v hsplit hpre ht
    rw [decode_row, hsplit, List.filterMap_append,
      List.filterMap_eq_nil_iff.mpr hpre, List.filterMap_cons_some ht]
    rfl
  · intro row h
    rw [decode_row, List.filterMap_eq_nil_iff.mpr h]
    rfl
  · intro m i
    exact List.getElem?_map decode_row (splitOnStr m "],[") i

/-- Witness for C1 at concrete rows. -/
theorem C1_row_decodes_first_parsing_token_witness :
    decode_row "x,5" = some (F32Val.finite 5) ∧ decode_row "x,y" = none :=
  ⟨C1_row_decodes_first_parsing_token.1 "x,5" "5" ["x"] [] (F32Val.finite 5)
      (by decide) (by decide) (by decide),
   C1_row_decodes_first_parsing_token.2.1 "x,y" (by decide)⟩

/-- C2 counterexample: with the script node entirely absent, `parse` does
NOT surface any failure — its result type has no failure channel at all —
and the caller receives a degraded `AirStatus` with station and time
filled in but an empty pollutant list, even though a well-formed pollutant
card is present in the document. -/
theorem C2_counterexample_no_failure_on_absent_script :
    parse noScriptDoc =
      { station_address := "세종 세종시 신흥동측정소"
        time := "2019-04-13 18시 기준"
        pollutants := [] }
    ∧ noScriptDoc.listElems ≠ [] := by
  constructor
  · decide
  · decide

/-- C2 amended: when the embedded script node is absent, `parse` treats it
like any absent field — it returns a normal `AirStatus` whose pollutant
vector is empty (`unwrap_or_default`), with station address and time still
extracted; no distinct extraction failure exists. -/
theorem C2_absent_script_yields_empty_pollutants (doc : Html)
    (h : doc.scriptElems = []) :
    parse doc = { station_address := stationOf doc
                  time := timeOf doc
                  pollutants := [] } := by
  show AirStatus.mk (stationOf doc) (timeOf doc) (pollutantsOf doc) = _
  rw [pollutantsOf, h]
  rfl

/-- Witness for C2 on a concrete script-free document. -/
theorem C2_absent_script_yields_empty_pollutants_witness :
    parse ⟨[⟨["S"]⟩], [⟨["T"]⟩], [], []⟩ =
      { station_address := stationOf ⟨[⟨["S"]⟩], [⟨["T"]⟩], [], []⟩
        time := timeOf ⟨[⟨["S"]⟩], [⟨["T"]⟩], [], []⟩
        pollutants := [] } :=
  C2_absent_script_yields_empty_pollutants ⟨[⟨["S"]⟩], [⟨["T"]⟩], [], []⟩ rfl

/-- C3 counterexample: the code zips the UNfiltered metadata sequence with
the series sequence and filters afterwards, so when a code-less card
precedes a code-bearing one, the first output pollutant takes its data
from the series call at the card's original index (the second call,
values 3 and 4) — not from the first series call (values 1 and 2) as the
claim's filter-then-pair reading requires. -/
theorem C3_counterexample_zip_not_filtered :
    (parse leadingCodelessDoc).pollutants =
      [{ name := "PM10", unit := "ug"
         data := [some (F32Val.finite 3), some (F32Val.finite 4)]
         grade := Grade.Bad }]
    ∧ (seriesCallsOf leadingCodelessDoc).map decodeCall =
      [[some (F32Val.finite 1), some (F32Val.finite 2)],
       [some (F32Val.finite 3), some (F32Val.finite 4)]]
    ∧ assembleFilteredSpec
        ((seriesCallsOf leadingCodelessDoc).map decodeCall)
        (leadingCodelessDoc.listElems.map blockKey) =
      [{ name := "PM10", unit := "ug"
         data := [some (F32Val.finite 1), some (F32Val.finite 2)]
         grade := Grade.Bad }] :=
  ⟨by decide, by decide, by decide⟩

/-- C3 amended: the assembler pairs the series sequence positionally with
the UNfiltered metadata sequence (same index in source document order) and
drops, after pairing, every pair whose block has no recovered code; hence
each output pollutant takes its data from the series call at its block's
original document index, and a metadata entry with no series entry at its
own index (or a series entry with no metadata entry) is dropped —
equivalently, the output is the lockstep walk `assembleRec` of the two
sequences. -/
theorem C3_positional_pairing (doc : Html) :
    (parse doc).pollutants =
      assembleRec ((seriesCallsOf doc).map decodeCall) (doc.listElems.map blockKey)
    ∧ (∀ ks, assembleRec [] ks = []) := by
  constructor
  · show pollutantsOf doc = _
    rw [pollutantsOf_eq_zip, zip_filterMap_eq_assembleRec]
  · intro ks; rfl

/-- C4: the grade classifier is total with exactly the five grades as
values; it decides on the leading glyph in the source's priority order;
empty and unrecognized input yield `Grade.None`; and two inputs with the
same leading character classify identically whatever their tails. -/
theorem C4_grade_classifier_total_leading_glyph :
    (∀ s : String, Grade.from_str s ∈
      ([Grade.None, Grade.Good, Grade.Normal, Grade.Bad, Grade.Critical] : List Grade))
    ∧ Grade.from_str "" = Grade.None
    ∧ (∀ s t : String, s.data.head? = t.data.head? →
        Grade.from_str s = Grade.from_str t)
    ∧ (∀ s : String, s.data.head? = some '좋' → Grade.from_str s = Grade.Good)
    ∧ (∀ s : String, s.data.head? = some '보' → Grade.from_str s = Grade.Normal)
    ∧ (∀ s : String, s.data.head? = some '나' → Grade.from_str s = Grade.Bad)
    ∧ (∀ s : String, s.data.head? = some '매' → Grade.from_str s = Grade.Critical)
    ∧ (∀ (s : String) (c : Char), s.data.head? = some c →
        c ≠ '좋' → c ≠ '보' → c ≠ '나' → c ≠ '매' → Grade.from_str s = Grade.None) := by
  refine ⟨?_, by decide, ?_, ?_, ?_, ?_, ?_, ?_⟩
  · intro s
    rw [from_str_eq_gradeOfHead]
    cases h : gradeOfHead s.data.head? <;> simp
  · intro s t h
    rw [from_str_eq_gradeOfHead, from_str_eq_gradeOfHead, h]
  · intro s h; rw [from_str_eq_gradeOfHead, h]; rfl
  · intro s h; rw [from_str_eq_gradeOfHead, h]; rfl
  · intro s h; rw [from_str_eq_gradeOfHead, h]; rfl
  · intro s h; rw [from_str_eq_gradeOfHead, h]; rfl
  · intro s c h h1 h2 h3 h4
    rw [from_str_eq_gradeOfHead, h]
    have e1 : (c == '좋') = false := beq_eq_false_iff_ne.mpr h1
    have e2 : (c == '보') = false := beq_eq_false_iff_ne.mpr h2
    have e3 : (c == '나') = false := beq_eq_false_iff_ne.mpr h3
    have e4 : (c == '매') = false := beq_eq_false_iff_ne.mpr h4
    simp only [gradeOfHead, e1, e2, e3, e4, Bool.false_eq_true, if_false]

/-- Witness for C4 at concrete inputs. -/
theorem C4_grade_classifier_total_leading_glyph_witness :
    Grade.from_str "좋음" = Grade.Good
    ∧ Grade.from_str "매우나쁨" = Grade.Critical
    ∧ Grade.from_str "섬" = Grade.None
    ∧ Grade.from_str "나쁨" = Grade.from_str "나아짐" := by
  refine ⟨?_, ?_, ?_, ?_⟩
  · exact C4_grade_classifier_total_leading_glyph.2.2.2.1 "좋음" (by decide)
  · exact C4_grade_classifier_total_leading_glyph.2.2.2.2.2.2.1 "매우나쁨" (by decide)
  · exact C4_grade_classifier_total_leading_glyph.2.2.2.2.2.2.2 "섬" '섬'
      (by decide) (by decide) (by decide) (by decide) (by decide)
  · exact C4_grade_classifier_total_leading_glyph.2.2.1 "나쁨" "나아짐" (by decide)

/-- C5 counterexample: on an input with two parenthesized groups the
greedy capture `\((.*)\)` spans from the first `(` to the LAST `)`, so
the code does not return the first group's inner content. -/
theorem C5_counterexample_greedy_spans_groups :
    unwrap_parenthesized "(a)(b)" = some "a)(b"
    ∧ first_parenthesized_group "(a)(b)" = some "a"
    ∧ unwrap_parenthesized "(a)(b)" ≠ first_parenthesized_group "(a)(b)" :=
  ⟨by decide, by decide, by decide⟩

/-- C5 amended: `unwrap_parenthesized` returns the capture of the greedy
regex `\((.*)\)` — the text between the first eligible `(` and the last
`)` of the newline-free stretch that follows it.  For an input containing
exactly one parenthesized group this is that group's inner content; an
input with no `(` yields absence; and the two cited examples hold. -/
theorem C5_unwrap_parenthesized_greedy :
    (∀ (pre mid post : List Char), '(' ∉ pre → ')' ∉ mid → '\n' ∉ mid →
        ')' ∉ post.takeWhile (fun d => d ≠ '\n') →
        unwrap_parenthesized (String.mk (pre ++ '(' :: (mid ++ ')' :: post)))
          = some (String.mk mid))
    ∧ (∀ s : String, (∀ c ∈ s.data, c ≠ '(') → unwrap_parenthesized s = none)
    ∧ unwrap_parenthesized "측정소(PM10)" = some "PM10"
    ∧ unwrap_parenthesized "측정소" = none := by
  refine ⟨?_, ?_, by decide, by decide⟩
  · intro pre mid post hpre hmid1 hmid2 hpost
    rw [unwrap_parenthesized]
    rw [show (String.mk (pre ++ '(' :: (mid ++ ')' :: post))).data
        = pre ++ '(' :: (mid ++ ')' :: post) from rfl]
    rw [findParen_single_group pre mid post hpre hmid1 hmid2 hpost]
    rfl
  · intro s h
    rw [unwrap_parenthesized,
      findParen_eq_none_of_no_paren s.data (fun m => h '(' m rfl)]
    rfl

/-- Witness for C5 at concrete inputs. -/
theorem C5_unwrap_parenthesized_greedy_witness :
    unwrap_parenthesized (String.mk (['x'] ++ '(' :: (['y'] ++ ')' :: ['z'])))
      = some (String.mk ['y'])
    ∧ unwrap_parenthesized "xyz" = none :=
  ⟨C5_unwrap_parenthesized_greedy.1 ['x'] ['y'] ['z']
      (by decide) (by decide) (by decide) (by decide),
   C5_unwrap_parenthesized_greedy.2.1 "xyz" (by decide)⟩

/-- C6: decoding one matched series call preserves row count and row
order: the output has exactly one entry per `],[`-delimited row chunk, in
payload order, with no padding to a fixed length and no failure — a call
carrying fewer rows than the expected hourly count still decodes exactly
the rows present. -/
theorem C6_decode_preserves_rows (m : String) :
    (decodeCall m).length = (splitOnStr m "],[").length
    ∧ (∀ i : Nat, (decodeCall m)[i]? = (splitOnStr m "],[")[i]?.map decode_row) := by
  constructor
  · exact List.length_map _ _
  · intro i
    exact List.getElem?_map decode_row (splitOnStr m "],[") i

/-- C7: a repeated block whose name label has no recovered parenthesized
code never contributes a pollutant, however well-formed its grade and unit
fields are: every output pollutant's name, unit and grade come from some
code-bearing block of the document, and the output count is bounded by the
number of code-bearing blocks. -/
theorem C7_codeless_block_never_contributes (doc : Html) :
    (∀ p ∈ (parse doc).pollutants,
        ∃ b ∈ doc.listElems, blockKey b = (some p.name, p.unit, p.grade))
    ∧ (parse doc).pollutants.length ≤
        (doc.listElems.filter (fun b => (blockKey b).1.isSome)).length := by
  constructor
  · intro p hp
    have hp2 : p ∈ (((seriesCallsOf doc).map decodeCall).zip
        (doc.listElems.map blockKey)).filterMap mkPollutant := by
      have e : (parse doc).pollutants = pollutantsOf doc := rfl
      rw [e, pollutantsOf_eq_zip] at hp
      exact hp
    rcases List.mem_filterMap.mp hp2 with ⟨⟨d, k⟩, hmem, hmk⟩
    rcases k with ⟨n, u, g⟩
    cases n with
    | none => simp [mkPollutant] at hmk
    | some nm =>
      have hk : (some nm, u, g) ∈ doc.listElems.map blockKey :=
        (List.of_mem_zip hmem).2
      rcases List.mem_map.mp hk with ⟨b, hb, hbk⟩
      refine ⟨b, hb, ?_⟩
      rw [hbk]
      have hpe : ({ name := nm, unit := u, data := d, grade := g } : Pollutant) = p := by
        simpa [mkPollutant] using hmk
      rw [← hpe]
  · have e1 : (parse doc).pollutants = pollutantsOf doc := rfl
    rw [e1, pollutantsOf_eq_zip, zip_filterMap_eq_assembleRec]
    have e2 := assembleRec_length_le ((seriesCallsOf doc).map decodeCall)
      (doc.listElems.map blockKey)
    calc (assembleRec ((seriesCallsOf doc).map decodeCall)
            (doc.listElems.map blockKey)).length
        ≤ ((doc.listElems.map blockKey).filter (fun k => k.1.isSome)).length := e2
      _ = (doc.listElems.filter (fun b => (blockKey b).1.isSome)).length := by
          rw [List.filter_map, List.length_map]
          rfl

/-- Witness for C7 on a single-card document. -/
theorem C7_codeless_block_never_contributes_witness :
    ∃ b ∈ (Html.mk [] []
        [{ nameElem := some ⟨["아황산가스(SO2)"]⟩
           gradeElem := some ⟨["좋음"]⟩
           unitElem := some ⟨["ppm"]⟩ }]
        [⟨["addRows([[z,1],[2,0]]);"]⟩]).listElems,
      blockKey b = (some "SO2", "ppm", Grade.Good) :=
  (C7_codeless_block_never_contributes
    (Html.mk [] []
      [{ nameElem := some ⟨["아황산가스(SO2)"]⟩
         gradeElem := some ⟨["좋음"]⟩
         unitElem := some ⟨["ppm"]⟩ }]
      [⟨["addRows([[z,1],[2,0]]);"]⟩])).1
    { name := "SO2", unit := "ppm"
      data := [some (F32Val.finite 1), some (F32Val.finite 2)]
      grade := Grade.Good }
    (by decide)

/-- C8: the derived order on `Grade` (discriminant comparison, as produced
by `derive(PartialOrd, Ord)` on the enum) is reflexive, antisymmetric,
transitive and total, and orders the five values as
None < Good < Normal < Bad < Critical. -/
theorem C8_grade_total_order :
    (∀ a : Grade, Grade.le a a)
    ∧ (∀ a b : Grade, Grade.le a b → Grade.le b a → a = b)
    ∧ (∀ a b c : Grade, Grade.le a b → Grade.le b c → Grade.le a c)
    ∧ (∀ a b : Grade, Grade.le a b ∨ Grade.le b a)
    ∧ Grade.lt Grade.None Grade.Good
    ∧ Grade.lt Grade.Good Grade.Normal
    ∧ Grade.lt Grade.Normal Grade.Bad
    ∧ Grade.lt Grade.Bad Grade.Critical := by
  refine ⟨?_, ?_, ?_, ?_, by decide, by decide, by decide, by decide⟩
  · intro a; cases a <;> decide
  · intro a b; cases a <;> cases b <;> decide
  · intro a b c; cases a <;> cases b <;> cases c <;> decide
  · intro a b; cases a <;> cases b <;> decide

/-- Witness for C8 at concrete grades, via the antisymmetry part. -/
theorem C8_grade_total_order_witness : Grade.Normal = Grade.Normal :=
  C8_grade_total_order.2.1 Grade.Normal Grade.Normal (by decide) (by decide)

/-- C9: `parse` is total — it is a plain function into `AirStatus`, with
no failure channel and no panicking operation on the document path — and
each of the three selector groups degrades to an empty value when it
matches nothing: empty station address, empty time, empty pollutant
vector. -/
theorem C9_parse_total_absent_fields (doc : Html) :
    (doc.stationElems = [] → (parse doc).station_address = "")
    ∧ (doc.timeElems = [] → (parse doc).time = "")
    ∧ (doc.scriptElems = [] → (parse doc).pollutants = []) := by
  refine ⟨?_, ?_, ?_⟩
  · intro h
    show stationOf doc = ""
    rw [stationOf, h]
    rfl
  · intro h
    show timeOf doc = ""
    rw [timeOf, h]
    rfl
  · intro h
    show pollutantsOf doc = []
    rw [pollutantsOf, h]
    rfl

/-- Witness for C9 on the empty document. -/
theorem C9_parse_total_absent_fields_witness :
    (parse ⟨[], [], [], []⟩).station_address = ""
    ∧ (parse ⟨[], [], [], []⟩).time = ""
    ∧ (parse ⟨[], [], [], []⟩).pollutants = [] :=
  ⟨(C9_parse_total_absent_fields ⟨[], [], [], []⟩).1 rfl,
   (C9_parse_total_absent_fields ⟨[], [], [], []⟩).2.1 rfl,
   (C9_parse_total_absent_fields ⟨[], [], [], []⟩).2.2 rfl⟩

/-- C10: the output pollutant count never exceeds the minimum of the
number of matched script series calls and the number of repeated list
blocks — positional zip truncates to the shorter side and the code filter
only removes further entries. -/
theorem C10_output_bounded_by_min (doc : Html) :
    (parse doc).pollutants.length ≤
      min (seriesCallsOf doc).length doc.listElems.length := by
  show (pollutantsOf doc).length ≤ _
  rw [pollutantsOf_eq_zip]
  calc ((((seriesCallsOf doc).map decodeCall).zip (doc.listElems.map blockKey)).filterMap
          mkPollutant).length
      ≤ (((seriesCallsOf doc).map decodeCall).zip (doc.listElems.map blockKey)).length :=
        List.length_filterMap_le _ _
    _ = min ((seriesCallsOf doc).map decodeCall).length (doc.listElems.map blockKey).length :=
        List.length_zip ..
    _ = min (seriesCallsOf doc).length doc.listElems.length := by
        rw [List.length_map, List.length_map]
